import Mathlib

/-!
Shallow embedding of the text-analysis core of the Smart Document Intelligence
frontend (src/frontend/src/App.js): performDocumentAnalysis (lines 90-116),
extractRelevantContext (118-140), generateAnswer (142-164), and the word count
stored on the Document record at upload (line 54).  Strings are modelled as
lists of characters; the JS regular-expression splits are modelled by
executable run-splitting functions defined below.  All concrete inputs in this
development are ASCII, so JS Unicode-aware lowercasing and whitespace classes
coincide with the ASCII versions used here.
-/

/-- Characters matched by the JS whitespace class in the split regexes,
restricted to ASCII whitespace (space, tab, carriage return, newline). -/
def isWs (c : Char) : Bool := c.isWhitespace

/-- Characters of the JS sentence-delimiter class: period, exclamation mark,
question mark. -/
def isSentenceDelim (c : Char) : Bool := c == '.' || c == '!' || c == '?'

/-- Cons a character onto the first fragment of a fragment list; used by the
split functions to extend the fragment currently being built. -/
def consFrag (c : Char) : List (List Char) → List (List Char)
  | [] => [[c]]
  | f :: fs => (c :: f) :: fs

/-- JS String.prototype.split on a regex matching a run of one or more
delimiter characters.  Matches the JS behaviour exactly: the empty string
splits to one empty fragment, a leading (resp. trailing) delimiter run yields a
leading (resp. trailing) empty fragment, and interior runs are collapsed, never
producing empty interior fragments. -/
def splitRuns (p : Char → Bool) : List Char → List (List Char)
  | [] => [[]]
  | c :: rest =>
    if p c then
      match rest with
      | [] => [[], []]
      | d :: _ => if p d then splitRuns p rest else [] :: splitRuns p rest
    else
      consFrag c (splitRuns p rest)

/-- JS String.prototype.split on the paragraph regex: a delimiter is a run of
two or more consecutive newlines; a single newline is ordinary fragment
content. -/
def splitParaGo : Char → List Char → List (List Char)
  | c, [] => [[c]]
  | c, [d] => if c == '\n' && d == '\n' then [[], []] else consFrag c (splitParaGo d [])
  | c, d :: e :: r3 =>
    if c == '\n' && d == '\n' then
      (if e == '\n' then splitParaGo d (e :: r3) else [] :: splitParaGo e r3)
    else consFrag c (splitParaGo d (e :: r3))

def splitPara : List Char → List (List Char)
  | [] => [[]]
  | c :: rest => splitParaGo c rest

/-- JS String.prototype.toLowerCase, ASCII fragment. -/
def lowerStr (s : List Char) : List Char := s.map Char.toLower

/-- JS String.prototype.trim: strip whitespace from both ends. -/
def trimStr (s : List Char) : List Char :=
  ((s.dropWhile isWs).reverse.dropWhile isWs).reverse

/-- pat is a leading segment of hay (Boolean). -/
def leadsWith : List Char → List Char → Bool
  | [], _ => true
  | _ :: _, [] => false
  | a :: as, b :: bs => a == b && leadsWith as bs

/-- JS String.prototype.includes: pat occurs contiguously somewhere in hay.
The empty pattern occurs in every string, as in JS. -/
def includesStr (hay pat : List Char) : Bool :=
  hay.tails.any fun t => leadsWith pat t

/-- App.js line 91: text.split on sentence delimiters, keeping fragments whose
trim is non-empty (the fragments themselves are NOT trimmed here). -/
def sentencesOf (text : List Char) : List (List Char) :=
  (splitRuns isSentenceDelim text).filter fun s => decide (0 < (trimStr s).length)

/-- App.js line 92: text.split on whitespace runs, keeping non-empty fragments. -/
def wordsOf (text : List Char) : List (List Char) :=
  (splitRuns isWs text).filter fun w => decide (0 < w.length)

/-- App.js line 93: paragraphs, split on runs of two or more newlines, keeping
fragments whose trim is non-empty. -/
def paragraphsOf (text : List Char) : List (List Char) :=
  (splitPara text).filter fun s => decide (0 < (trimStr s).length)

/-- App.js line 97: word.toLowerCase() with every character outside the classes
a-z and 0-9 removed. -/
def cleanWord (w : List Char) : List Char :=
  (w.map Char.toLower).filter fun c => c.isLower || c.isDigit

/-- One step of wordFreq accumulation: increment the count of an existing key,
or append the new key with count 1 at the end (JS string keys keep insertion
order). -/
def bumpFreq (key : List Char) : List (List Char × Nat) → List (List Char × Nat)
  | [] => [(key, 1)]
  | (k, n) :: rest => if k == key then (k, n + 1) :: rest else (k, n) :: bumpFreq key rest

/-- App.js lines 95-101: the wordFreq object, as an association list in key
insertion order; only cleaned tokens of length above 3 are recorded. -/
def buildFreq (ws : List (List Char)) : List (List Char × Nat) :=
  ws.foldl (fun acc w =>
    if 3 < (cleanWord w).length then bumpFreq (cleanWord w) acc else acc) []

/-- Numeric value of a digit string. -/
def natOfDigits (s : List Char) : Nat :=
  s.foldl (fun n c => n * 10 + (c.toNat - 48)) 0

/-- JS object keys that are canonical array indices: non-empty digit strings
with no leading zero (except the single digit 0) whose value is below 2^32 - 1.
JS object property enumeration, hence Object.entries, lists these keys first,
in ascending numeric order, before all other keys in insertion order. -/
def isIndexKey (s : List Char) : Bool :=
  !s.isEmpty && s.all Char.isDigit && (s == ['0'] || !(s.head? == some '0'))
    && decide (natOfDigits s < 2 ^ 32 - 1)

def insertAscBy {α : Type} (key : α → Nat) (x : α) : List α → List α
  | [] => [x]
  | y :: ys => if key x < key y then x :: y :: ys else y :: insertAscBy key x ys

def sortAscBy {α : Type} (key : α → Nat) : List α → List α
  | [] => []
  | x :: xs => insertAscBy key x (sortAscBy key xs)

/-- Stable insertion for a descending sort: x (originally earlier than every
element of the list) is placed before the first element whose key does not
exceed its own, hence before every element of equal key. -/
def insertDescBy {α : Type} (key : α → Nat) (x : α) : List α → List α
  | [] => [x]
  | y :: ys => if key y ≤ key x then x :: y :: ys else y :: insertDescBy key x ys

/-- The stable descending sort by a numeric key; models the ES2019 stable
Array.prototype.sort with comparator (a, b) => key b - key a, whose output
(descending, ties in original order) is unique. -/
def sortDescBy {α : Type} (key : α → Nat) : List α → List α
  | [] => []
  | x :: xs => insertDescBy key x (sortDescBy key xs)

/-- App.js line 103: Object.entries(wordFreq).  Enumeration order of a
string-keyed JS object: canonical array-index keys first in ascending numeric
order, then the remaining keys in insertion order. -/
def objectEntries (freq : List (List Char × Nat)) : List (List Char × Nat) :=
  sortAscBy (fun kv => natOfDigits kv.1) (freq.filter fun kv => isIndexKey kv.1)
    ++ freq.filter fun kv => !isIndexKey kv.1

structure KeywordCount where
  word : List Char
  count : Nat
deriving DecidableEq

structure Analysis where
  sentenceCount : Nat
  wordCount : Nat
  paragraphCount : Nat
  avgWordsPerSentence : Option ℚ
  topWords : List KeywordCount
  readingTime : Nat
deriving DecidableEq

/-- App.js lines 103-106: sort the entries descending by count (stable), take
the first 10, repackage as word/count records. -/
def topWordsOf (text : List Char) : List KeywordCount :=
  ((sortDescBy (fun kv => kv.2) (objectEntries (buildFreq (wordsOf text)))).take 10).map
    fun kv => ⟨kv.1, kv.2⟩

/-- App.js lines 90-116.  avgWordsPerSentence: JS computes
(words.length / sentences.length).toFixed(1); with zero sentences the quotient
is NaN (zero words) or Infinity (positive words), modelled as none; otherwise
we model the exact rational quotient (the presentational rounding to one
decimal place is not modelled, and no claim depends on it).  readingTime is
Math.ceil of words/200, exact on naturals as (w + 199) / 200. -/
def performDocumentAnalysis (text : List Char) : Analysis :=
  { sentenceCount := (sentencesOf text).length
    wordCount := (wordsOf text).length
    paragraphCount := (paragraphsOf text).length
    avgWordsPerSentence :=
      if (sentencesOf text).length = 0 then none
      else some (((wordsOf text).length : ℚ) / ((sentencesOf text).length : ℚ))
    topWords := topWordsOf text
    readingTime := ((wordsOf text).length + 199) / 200 }

/-- App.js line 120: query.toLowerCase().split on whitespace runs, with no
filtering (empty fragments from leading or trailing whitespace are kept). -/
def queryWordsOf (query : List Char) : List (List Char) :=
  splitRuns isWs (lowerStr query)

/-- App.js lines 122-127: number of query tokens (with multiplicity) occurring
in the lowercased raw sentence. -/
def sentenceScore (qws : List (List Char)) (sentence : List Char) : Nat :=
  (qws.filter fun w => includesStr (lowerStr sentence) w).length

/-- App.js lines 122-129: each kept sentence paired with its score; the stored
sentence is trimmed, the score is computed on the untrimmed sentence. -/
def scoredSentences (content query : List Char) : List (List Char × Nat) :=
  (sentencesOf content).map fun s => (trimStr s, sentenceScore (queryWordsOf query) s)

/-- App.js lines 131-134: keep positive scores, stable-sort descending by
score, take the first 5 (still paired with the scores). -/
def relevantScored (content query : List Char) : List (List Char × Nat) :=
  (sortDescBy (fun p => p.2) ((scoredSentences content query).filter fun p => decide (0 < p.2))).take 5

/-- App.js lines 131-135: the selected trimmed sentences. -/
def relevantSentences (content query : List Char) : List (List Char) :=
  (relevantScored content query).map fun p => p.1

def sepDotSpace : List Char := ['.', ' ']

/-- JS Array.prototype.join with a separator string. -/
def joinSep (sep : List Char) : List (List Char) → List Char
  | [] => []
  | [x] => x
  | x :: y :: xs => x ++ sep ++ joinSep sep (y :: xs)

/-- App.js lines 118-140. -/
def extractRelevantContext (content query : List Char) : List Char :=
  if 0 < (relevantSentences content query).length then
    joinSep sepDotSpace (relevantSentences content query)
  else
    joinSep sepDotSpace ((sentencesOf content).take 5)

/-- The apostrophe character, kept out of string literals. -/
def apos : Char := Char.ofNat 39

/-- App.js lines 145-148, the summary branch. -/
def summaryReply (context : List Char) : List Char :=
  ("Here".data ++ [apos] ++ "s a summary based on the document: ".data)
    ++ joinSep sepDotSpace ((sentencesOf context).take 3) ++ ['.']

/-- App.js line 151: context.match of digit runs; the maximal runs of digits in
order (JS returns null when there are none, modelled by the empty list, which
JS match never returns otherwise). -/
def digitRuns (s : List Char) : List (List Char) :=
  (splitRuns (fun c => !c.isDigit) s).filter fun r => decide (0 < r.length)

/-- App.js line 153, the counting branch when digits were found; the tail
repeats the part of the context before its first period (context.split at
periods, element 0). -/
def numbersReply (context : List Char) : List Char :=
  "Based on the document, I found the following numbers: ".data
    ++ joinSep [',', ' '] ((digitRuns context).take 5)
    ++ sepDotSpace ++ context.takeWhile (fun c => c != '.') ++ ['.']

/-- App.js lines 157-160, the definition branch. -/
def definitionReply (context : List Char) : List Char :=
  match sentencesOf context with
  | [] => "I found some relevant information in the document.".data
  | s :: _ => trimStr s ++ ['.']

/-- App.js lines 162-163, the default branch. -/
def defaultReply (context : List Char) : List Char :=
  "Based on the document: ".data ++ joinSep sepDotSpace ((sentencesOf context).take 3) ++ ['.']

/-- App.js lines 142-164.  Faithful control flow: the counting branch only
returns when digit runs were found; otherwise evaluation falls through to the
definition check and then the default. -/
def generateAnswer (context query : List Char) : List Char :=
  if includesStr (lowerStr query) "summar".data then summaryReply context
  else if (includesStr (lowerStr query) "how many".data
        || includesStr (lowerStr query) "count".data)
      && !(digitRuns context).isEmpty then numbersReply context
  else if includesStr (lowerStr query) "what is".data
        || includesStr (lowerStr query) "define".data then definitionReply context
  else defaultReply context

/-- App.js line 54: the word count stored on the Document record at upload is
text.split on whitespace runs with NO removal of empty fragments. -/
def docWordCount (text : List Char) : Nat := (splitRuns isWs text).length

structure Document where
  content : List Char
  wordCount : Nat
  analysis : Analysis
deriving DecidableEq

/-- Claim-relevant part of the Document record built in handleFileUpload
(App.js lines 49-59); id, name, upload date and the kilobyte size string are
external or presentational and omitted. -/
def mkDocument (text : List Char) : Document :=
  { content := text, wordCount := docWordCount text, analysis := performDocumentAnalysis text }

/-- Helper for first-occurrence deduplication: keep elements not yet seen, in
order, accumulating the seen set. -/
def dedupGo (seen : List (List Char)) : List (List Char) → List (List Char)
  | [] => []
  | a :: l => if a ∈ seen then dedupGo seen l else a :: dedupGo (seen ++ [a]) l

/-- First-occurrence deduplication: each distinct element once, in the order of
its first occurrence; used to state the number of distinct keyword tokens and
their first-encountered order. -/
def dedupFS (l : List (List Char)) : List (List Char) := dedupGo [] l

/-- The cleaned tokens of length above 3, in text order with repetitions. -/
def cleanTokensOf (text : List Char) : List (List Char) :=
  ((wordsOf text).map cleanWord).filter fun t => decide (3 < t.length)

/-- a is a leading segment of b. -/
def ListLeads {α : Type} (a b : List α) : Prop := ∃ t, a ++ t = b

/-! ## Theorems -/

/-- Claim C1 (code bug witness): on the empty document the analysis record has
all counts 0, empty topWords and reading time 0, but avgWordsPerSentence is
NOT the defined numeric value 0: the code computes the quotient 0/0 (JS NaN,
modelled as none) and propagates it to the output. -/
theorem c1_empty_document_analysis :
    performDocumentAnalysis [] =
      { sentenceCount := 0, wordCount := 0, paragraphCount := 0,
        avgWordsPerSentence := none, topWords := [], readingTime := 0 }
    ∧ (performDocumentAnalysis []).avgWordsPerSentence ≠ some 0 := by
  constructor
  · rfl
  · decide

/-- Claim C8: for the cats-and-dogs document and the query about cats, the
extracted context starts with the first sentence. -/
theorem c8_cats_context :
    leadsWith "Cats are mammals".data
      (extractRelevantContext
        "Cats are mammals. Dogs are mammals too. Cats and dogs are common pets.".data
        "What is a cat?".data) = true := by
  decide

/-- Claim C2 (counterexample): the query "count what is" contains "count" but
not "summar", and the context "Hello world" has no digit run, yet the answer is
NOT the case-4 default reply: the code falls through to the definition branch
first. -/
theorem c2_counterexample :
    generateAnswer "Hello world".data "count what is".data = definitionReply "Hello world".data
    ∧ generateAnswer "Hello world".data "count what is".data ≠ defaultReply "Hello world".data := by
  constructor
  · decide
  · decide

/-- Claim C2 (amended): for a query containing "how many" or "count" but not
"summar", if the context has no digit run, the counting branch does not return
and evaluation falls through to the NEXT check: the definition branch answers
when the query contains "what is" or "define", and only otherwise the case-4
default answers. -/
theorem c2_count_no_digits_falls_through (context query : List Char)
    (hcount : includesStr (lowerStr query) "how many".data = true
      ∨ includesStr (lowerStr query) "count".data = true)
    (hnosum : includesStr (lowerStr query) "summar".data = false)
    (hnodigits : digitRuns context = []) :
    generateAnswer context query =
      if includesStr (lowerStr query) "what is".data
          || includesStr (lowerStr query) "define".data
      then definitionReply context else defaultReply context := by
  unfold generateAnswer
  rw [hnosum, hnodigits]
  simp

/-- Claim C2 (witness): the amended theorem applied at the query
"count things" and the context "Hello world". -/
theorem c2_count_no_digits_witness :
    includesStr (lowerStr "count things".data) "count".data = true
    ∧ includesStr (lowerStr "count things".data) "summar".data = false
    ∧ digitRuns "Hello world".data = []
    ∧ generateAnswer "Hello world".data "count things".data =
        (if includesStr (lowerStr "count things".data) "what is".data
            || includesStr (lowerStr "count things".data) "define".data
         then definitionReply "Hello world".data else defaultReply "Hello world".data) :=
  ⟨by decide, by decide, by decide,
    c2_count_no_digits_falls_through "Hello world".data "count things".data
      (Or.inr (by decide)) (by decide) (by decide)⟩

/-- Claim C6: a query whose lowercasing contains "summar" is always answered by
the summary branch, also when it contains "define": the summary check comes
first in the dispatch. -/
theorem c6_summary_beats_definition (context query : List Char)
    (hsum : includesStr (lowerStr query) "summar".data = true)
    (hdef : includesStr (lowerStr query) "define".data = true) :
    generateAnswer context query = summaryReply context := by
  unfold generateAnswer
  rw [hsum]
  simp

/-- Claim C6 (witness): the theorem applied at the query
"summarize and define" and the context "Cats purr. Dogs bark.". -/
theorem c6_summary_beats_definition_witness :
    includesStr (lowerStr "summarize and define".data) "summar".data = true
    ∧ includesStr (lowerStr "summarize and define".data) "define".data = true
    ∧ generateAnswer "Cats purr. Dogs bark.".data "summarize and define".data =
        summaryReply "Cats purr. Dogs bark.".data :=
  ⟨by decide, by decide,
    c6_summary_beats_definition "Cats purr. Dogs bark.".data "summarize and define".data
      (by decide) (by decide)⟩

/-- Claim C3 (counterexample): on the empty content the stored word count is 1
(JS split of the empty string yields one empty fragment, and line 54 does not
filter), while the number of non-empty whitespace-delimited tokens, which is
Analysis.wordCount, is 0. -/
theorem c3_counterexample :
    (mkDocument []).wordCount = 1 ∧ (mkDocument []).analysis.wordCount = 0
    ∧ (mkDocument []).wordCount ≠ (mkDocument []).analysis.wordCount := by
  refine ⟨rfl, rfl, ?_⟩
  decide

/-- Claim C4 (counterexample): in the text "abcd 1234" both tokens occur once;
first-seen order would put "abcd" first, but JS object key enumeration puts the
array-index key "1234" first, so the stable sort on equal counts keeps "1234"
before "abcd". -/
theorem c4_counterexample :
    (performDocumentAnalysis "abcd 1234".data).topWords
      = [⟨"1234".data, 1⟩, ⟨"abcd".data, 1⟩]
    ∧ (performDocumentAnalysis "abcd 1234".data).topWords
      ≠ [⟨"abcd".data, 1⟩, ⟨"1234".data, 1⟩] := by
  constructor
  · decide
  · decide

set_option maxRecDepth 100000 in
/-- Claim C9 (counterexample): a document containing the sentence
"There are 42 employees in 3 departments." whose other five sentences repeat
the query words outscores the number-bearing sentence, so the retrieved context
has no digits, the counting branch finds no numbers, and the answer contains
neither "42" nor "3". -/
theorem c9_counterexample :
    includesStr ("How many employees are there count them alpha. How many employees are there count them beta. How many employees are there count them gamma. How many employees are there count them delta. How many employees are there count them epsilon. There are 42 employees in 3 departments.").data
      "There are 42 employees in 3 departments.".data = true
    ∧ includesStr
        (generateAnswer
          (extractRelevantContext
            ("How many employees are there count them alpha. How many employees are there count them beta. How many employees are there count them gamma. How many employees are there count them delta. How many employees are there count them epsilon. There are 42 employees in 3 departments.").data
            "How many employees are there? Count them.".data)
          "How many employees are there? Count them.".data)
        "42".data = false := by
  constructor
  · decide
  · decide

/-- Claim C9 (amended): for the document whose content is exactly
"There are 42 employees in 3 departments." the counting query retrieves that
sentence as context, the counting branch fires, and the answer lists both 42
and 3. -/
theorem c9_count_scenario :
    generateAnswer
        (extractRelevantContext "There are 42 employees in 3 departments.".data
          "How many employees are there? Count them.".data)
        "How many employees are there? Count them.".data
      = numbersReply (extractRelevantContext "There are 42 employees in 3 departments.".data
          "How many employees are there? Count them.".data)
    ∧ (digitRuns (extractRelevantContext "There are 42 employees in 3 departments.".data
          "How many employees are there? Count them.".data)).take 5
      = ["42".data, "3".data]
    ∧ includesStr
        (generateAnswer
          (extractRelevantContext "There are 42 employees in 3 departments.".data
            "How many employees are there? Count them.".data)
          "How many employees are there? Count them.".data)
        "42".data = true
    ∧ includesStr
        (generateAnswer
          (extractRelevantContext "There are 42 employees in 3 departments.".data
            "How many employees are there? Count them.".data)
          "How many employees are there? Count them.".data)
        "3".data = true := by
  refine ⟨by decide, by decide, by decide, by decide⟩

/-- Claim C10 (counterexample): the query "a  b" contains a run of two spaces,
yet the JS whitespace split collapses the interior run and yields no
empty-string token; against the document "Xyz. Qrs." no sentence matches any
token, so the fallback branch IS taken (the selected list is empty). -/
theorem c10_counterexample :
    includesStr "a  b".data "  ".data = true
    ∧ queryWordsOf "a  b".data = [['a'], ['b']]
    ∧ relevantSentences "Xyz. Qrs.".data "a  b".data = [] := by
  refine ⟨by decide, by decide, by decide⟩

/-- Claim C5: when no lowercased query token occurs in any lowercased sentence,
every sentence scores 0, the positive-score list is empty, and
extractRelevantContext returns the first 5 sentences (fewer when the document
has fewer) in original order, joined by period-space. -/
theorem c5_no_overlap_fallback (content query : List Char)
    (h : ∀ s ∈ sentencesOf content, ∀ w ∈ queryWordsOf query,
      includesStr (lowerStr s) w = false) :
    extractRelevantContext content query = joinSep sepDotSpace ((sentencesOf content).take 5) := by
  have hscore : ∀ s ∈ sentencesOf content, sentenceScore (queryWordsOf query) s = 0 := by
    intro s hs
    unfold sentenceScore
    rw [List.length_eq_zero, List.filter_eq_nil_iff]
    intro w hw
    simp [h s hs w hw]
  have hfilter : (scoredSentences content query).filter (fun p => decide (0 < p.2)) = [] := by
    rw [List.filter_eq_nil_iff]
    intro p hp
    unfold scoredSentences at hp
    obtain ⟨s, hs, rfl⟩ := List.mem_map.mp hp
    simp [hscore s hs]
  unfold extractRelevantContext relevantSentences relevantScored
  rw [hfilter]
  simp [sortDescBy]

/-- Claim C5 (witness): the theorem applied at the content
"Hello there. Bye now." and the query "zzz", which shares no token with any
sentence. -/
theorem c5_no_overlap_fallback_witness :
    (∀ s ∈ sentencesOf "Hello there. Bye now.".data, ∀ w ∈ queryWordsOf "zzz".data,
      includesStr (lowerStr s) w = false)
    ∧ extractRelevantContext "Hello there. Bye now.".data "zzz".data
      = joinSep sepDotSpace ((sentencesOf "Hello there. Bye now.".data).take 5) :=
  ⟨by decide, c5_no_overlap_fallback "Hello there. Bye now.".data "zzz".data (by decide)⟩

theorem consFrag_ne_nil (c : Char) (l : List (List Char)) : consFrag c l ≠ [] := by
  cases l <;> simp [consFrag]

theorem splitRuns_ne_nil (p : Char → Bool) : ∀ s, splitRuns p s ≠ []
  | [] => by simp [splitRuns]
  | c :: rest => by
    by_cases hp : p c
    · cases rest with
      | nil => simp [splitRuns, hp]
      | cons d r2 =>
        by_cases hd : p d
        · simpa [splitRuns, hp, hd] using splitRuns_ne_nil p (d :: r2)
        · simp [splitRuns, hp, hd]
    · simpa [splitRuns, hp] using consFrag_ne_nil c (splitRuns p rest)

/-- Prepending a delimiter character splits off a leading empty fragment and
skips the rest of the delimiter run. -/
theorem splitRuns_cons_delim (p : Char → Bool) :
    ∀ (rest : List Char) (c : Char), p c = true →
      splitRuns p (c :: rest) = [] :: splitRuns p (rest.dropWhile p)
  | [], c, hc => by simp [splitRuns, hc]
  | d :: r2, c, hc => by
    by_cases hd : p d
    · have h1 : splitRuns p (c :: d :: r2) = splitRuns p (d :: r2) := by
        simp [splitRuns, hc, hd]
      rw [h1, splitRuns_cons_delim p r2 d hd]
      simp [List.dropWhile_cons, hd]
    · simp [splitRuns, hc, hd, List.dropWhile_cons]

/-- Prepending a non-delimiter character extends the first fragment. -/
theorem splitRuns_cons_nondelim (p : Char → Bool) (c : Char) (rest : List Char)
    (hp : p c = false) :
    splitRuns p (c :: rest) = consFrag c (splitRuns p rest) := by
  cases rest with
  | nil => simp [splitRuns, hp]
  | cons d r2 => by_cases hd : p d <;> simp [splitRuns, hp, hd]

/-- Only the empty string splits into the single empty fragment. -/
theorem splitRuns_eq_single (p : Char → Bool) : ∀ s, splitRuns p s = [[]] → s = []
  | [], _ => rfl
  | c :: rest, h => by
    exfalso
    by_cases hp : p c
    · rw [splitRuns_cons_delim p rest c hp] at h
      have h2 : splitRuns p (rest.dropWhile p) = [] := by simpa using h
      exact splitRuns_ne_nil p _ h2
    · cases hsp : splitRuns p rest with
      | nil => exact splitRuns_ne_nil p rest hsp
      | cons f fs =>
        have h1 : splitRuns p (c :: rest) = (c :: f) :: fs := by
          simp [splitRuns, hp, hsp, consFrag]
        rw [h1] at h
        simp at h

theorem getLast?_cons_of_ne_nil {α : Type} {a : α} {l : List α} (h : l ≠ []) :
    (a :: l).getLast? = l.getLast? := by
  cases l with
  | nil => exact absurd rfl h
  | cons b t => exact List.getLast?_cons_cons

theorem dropWhile_head_false (p : Char → Bool) :
    ∀ (l : List Char) (c : Char) (t : List Char), l.dropWhile p = c :: t → p c = false
  | [], c, t, h => by simp at h
  | a :: l, c, t, h => by
    by_cases ha : p a
    · rw [List.dropWhile_cons, if_pos ha] at h
      exact dropWhile_head_false p l c t h
    · rw [List.dropWhile_cons, if_neg ha] at h
      cases h
      simpa using ha

/-- A string ending in a delimiter splits with a trailing empty fragment. -/
theorem splitRuns_getLast_delim (p : Char → Bool) :
    ∀ (n : Nat) (s : List Char), s.length ≤ n → ∀ z, s.getLast? = some z → p z = true →
      (splitRuns p s).getLast? = some [] := by
  intro n
  induction n with
  | zero =>
    intro s hs z hz _
    have : s = [] := List.length_eq_zero.mp (Nat.le_zero.mp hs)
    subst this
    simp at hz
  | succ n ih =>
    intro s hs z hz hpz
    cases s with
    | nil => simp at hz
    | cons c rest =>
      by_cases hp : p c
      · rw [splitRuns_cons_delim p rest c hp]
        by_cases hr' : rest.dropWhile p = []
        · rw [hr']
          simp [splitRuns]
        · have hrestne : rest ≠ [] := by
            intro h0
            rw [h0] at hr'
            simp at hr'
          have hlast : rest.getLast? = some z := by
            rw [getLast?_cons_of_ne_nil hrestne] at hz
            exact hz
          have hr'last : (rest.dropWhile p).getLast? = some z := by
            have htd := List.takeWhile_append_dropWhile (p := p) (l := rest)
            calc (rest.dropWhile p).getLast?
                = (rest.takeWhile p ++ rest.dropWhile p).getLast? := by
                  rw [List.getLast?_append_of_ne_nil _ hr']
              _ = some z := by rw [htd]; exact hlast
          have hlen : (rest.dropWhile p).length ≤ n := by
            have h1 : (rest.dropWhile p).length ≤ rest.length :=
              (List.dropWhile_sublist p).length_le
            have h2 : rest.length ≤ n := by
              simpa [List.length_cons, Nat.succ_le_succ_iff] using hs
            omega
          have hmain := ih (rest.dropWhile p) hlen z hr'last hpz
          rw [getLast?_cons_of_ne_nil (splitRuns_ne_nil p (rest.dropWhile p))]
          exact hmain
      · cases rest with
        | nil =>
          simp at hz
          rw [hz] at hp
          exact absurd hpz (by simpa using hp)
        | cons d r2 =>
          have hlast : (d :: r2).getLast? = some z := by
            rw [getLast?_cons_of_ne_nil (by simp)] at hz
            exact hz
          have hlen : (d :: r2).length ≤ n := by
            simpa [List.length_cons, Nat.succ_le_succ_iff] using hs
          have hmain := ih (d :: r2) hlen z hlast hpz
          cases hsp : splitRuns p (d :: r2) with
          | nil => exact absurd hsp (splitRuns_ne_nil p (d :: r2))
          | cons f fs =>
            have hout : splitRuns p (c :: d :: r2) = (c :: f) :: fs := by
              rw [splitRuns_cons_nondelim p c (d :: r2) (by simpa using hp), hsp]
              rfl
            rw [hout]
            cases fs with
            | nil =>
              rw [hsp] at hmain
              simp at hmain
              rw [hmain] at hsp
              have := splitRuns_eq_single p (d :: r2) hsp
              simp at this
            | cons g fs' =>
              rw [hsp] at hmain
              rw [List.getLast?_cons_cons] at hmain ⊢
              exact hmain

/-- When a string is non-empty and neither begins nor ends with a delimiter,
every fragment of its run split is non-empty. -/
theorem splitRuns_all_ne_nil (p : Char → Bool) :
    ∀ (n : Nat) (s : List Char), s.length ≤ n → s ≠ [] →
      (∀ c, s.head? = some c → p c = false) →
      (∀ c, s.getLast? = some c → p c = false) →
      ∀ f ∈ splitRuns p s, f ≠ [] := by
  intro n
  induction n with
  | zero =>
    intro s hs hne _ _
    exact absurd (List.length_eq_zero.mp (Nat.le_zero.mp hs)) hne
  | succ n ih =>
    intro s hs hne hhead hlast
    cases s with
    | nil => exact absurd rfl hne
    | cons c rest =>
      have hp : p c = false := hhead c rfl
      cases hsp : splitRuns p rest with
      | nil => exact absurd hsp (splitRuns_ne_nil p rest)
      | cons f fs =>
        have hout : splitRuns p (c :: rest) = (c :: f) :: fs := by
          rw [splitRuns_cons_nondelim p c rest hp, hsp]
          rfl
        rw [hout]
        intro g hg
        rcases List.mem_cons.mp hg with rfl | hgfs
        · simp
        · cases rest with
          | nil =>
            rw [show splitRuns p ([] : List Char) = [[]] from rfl] at hsp
            cases hsp
            simp at hgfs
          | cons d r2 =>
            have hlastr : ∀ z, (d :: r2).getLast? = some z → p z = false := by
              intro z hz
              exact hlast z (by rw [getLast?_cons_of_ne_nil (by simp)]; exact hz)
            have hlenr : (d :: r2).length ≤ n := by
              simpa [List.length_cons, Nat.succ_le_succ_iff] using hs
            by_cases hd : p d
            · -- rest starts with a delimiter run; skip it
              rw [splitRuns_cons_delim p r2 d hd] at hsp
              cases hsp
              -- fs = splitRuns p (r2.dropWhile p)
              by_cases hr' : r2.dropWhile p = []
              · exfalso
                have hall : ∀ a ∈ r2, p a := List.dropWhile_eq_nil_iff.mp hr'
                cases hr2 : r2 with
                | nil =>
                  have := hlastr d (by rw [hr2]; rfl)
                  rw [hd] at this
                  cases this
                | cons e r3 =>
                  have hne2 : r2 ≠ [] := by rw [hr2]; simp
                  obtain ⟨z, hz⟩ := Option.isSome_iff_exists.mp
                    (List.getLast?_isSome.mpr hne2)
                  have hzmem : z ∈ r2 := List.mem_of_mem_getLast? hz
                  have h1 : p z = false :=
                    hlastr z (by rw [getLast?_cons_of_ne_nil hne2]; exact hz)
                  rw [hall z hzmem] at h1
                  cases h1
              · -- the remainder after the run is non-empty
                have hheadr' : ∀ c2, (r2.dropWhile p).head? = some c2 → p c2 = false := by
                  intro c2 hc2
                  cases hr2d : r2.dropWhile p with
                  | nil => exact absurd hr2d hr'
                  | cons e t =>
                    have he : p e = false := dropWhile_head_false p r2 e t hr2d
                    rw [hr2d] at hc2
                    simp only [List.head?_cons, Option.some.injEq] at hc2
                    rw [← hc2]
                    exact he
                have hlastr' : ∀ z, (r2.dropWhile p).getLast? = some z → p z = false := by
                  intro z hz
                  apply hlastr z
                  have hr2ne : r2 ≠ [] := by
                    intro h0
                    rw [h0] at hr'
                    simp at hr'
                  rw [getLast?_cons_of_ne_nil hr2ne]
                  calc r2.getLast? = (r2.takeWhile p ++ r2.dropWhile p).getLast? := by
                        rw [List.takeWhile_append_dropWhile]
                    _ = (r2.dropWhile p).getLast? := List.getLast?_append_of_ne_nil _ hr'
                    _ = some z := hz
                have hlenr' : (r2.dropWhile p).length ≤ n := by
                  have h1 : (r2.dropWhile p).length ≤ r2.length :=
                    (List.dropWhile_sublist p).length_le
                  have h2 : (d :: r2).length ≤ n := hlenr
                  simp [List.length_cons] at h2
                  omega
                exact ih (r2.dropWhile p) hlenr' hr' hheadr' hlastr' g hgfs
            · -- rest begins with a non-delimiter: the whole of splitRuns rest is fine
              have hheadr : ∀ c2, (d :: r2).head? = some c2 → p c2 = false := by
                intro c2 hc2
                cases hc2
                simpa using hd
              have := ih (d :: r2) hlenr (by simp) hheadr hlastr
              rw [hsp] at this
              exact this g (List.mem_cons_of_mem f hgfs)

/-- Claim C3 (amended): the stored word count equals the TOTAL number of
fragments of the whitespace-run split, empty fragments included; it therefore
equals Analysis.wordCount (the non-empty tokens) exactly when no fragment is
empty, in particular whenever the content is non-empty and neither begins nor
ends with whitespace — but not for empty content or content with leading or
trailing whitespace. -/
theorem c3_upload_word_count (text : List Char) (hne : text ≠ [])
    (hhead : ∀ c, text.head? = some c → isWs c = false)
    (hlast : ∀ c, text.getLast? = some c → isWs c = false) :
    (mkDocument text).wordCount = (mkDocument text).analysis.wordCount := by
  have hall := splitRuns_all_ne_nil isWs text.length text le_rfl hne hhead hlast
  show docWordCount text = (wordsOf text).length
  unfold docWordCount wordsOf
  rw [List.filter_eq_self.mpr ?_]
  intro w hw
  simpa [List.length_pos] using hall w hw

/-- Claim C3 (witness): the amended theorem applied at the content "ab cd",
which is non-empty and has no edge whitespace; both counts are 2. -/
theorem c3_upload_word_count_witness :
    "ab cd".data ≠ []
    ∧ isWs 'a' = false ∧ isWs 'd' = false
    ∧ (mkDocument "ab cd".data).wordCount = (mkDocument "ab cd".data).analysis.wordCount :=
  ⟨by decide, by decide, by decide,
    c3_upload_word_count "ab cd".data (by decide)
      (fun c hc => by
        rw [show ("ab cd".data.head?) = some 'a' from rfl] at hc
        cases hc
        decide)
      (fun c hc => by
        rw [show ("ab cd".data.getLast?) = some 'd' from rfl] at hc
        cases hc
        decide)⟩

theorem toLower_ws (c : Char) (h : isWs c = true) : c.toLower = c := by
  unfold isWs at h
  simp [Char.isWhitespace] at h
  rcases h with ((h | h) | h) | h <;> subst h <;> decide

theorem includesStr_nil (hay : List Char) : includesStr hay [] = true := by
  cases hay with
  | nil => rfl
  | cons a t => rfl

theorem insertDescBy_length {α : Type} (key : α → Nat) (x : α) :
    ∀ l, (insertDescBy key x l).length = l.length + 1
  | [] => rfl
  | y :: ys => by
    by_cases h : key y ≤ key x <;>
      simp [insertDescBy, h, insertDescBy_length key x ys]

theorem sortDescBy_length {α : Type} (key : α → Nat) :
    ∀ l, (sortDescBy key l).length = l.length
  | [] => rfl
  | x :: xs => by
    simp [sortDescBy, insertDescBy_length, sortDescBy_length key xs]

/-- Claim C10 (amended): for a query that BEGINS OR ENDS with whitespace, the
JS split of the lowercased query yields an empty-string token (interior runs do
not); the empty string occurs in every string, so against a document with at
least one sentence every sentence scores at least 1 and the first-5-sentences
fallback branch is never taken. -/
theorem c10_edge_whitespace_no_fallback (content query : List Char)
    (hq : (∃ c, query.head? = some c ∧ isWs c = true)
      ∨ (∃ c, query.getLast? = some c ∧ isWs c = true))
    (hs : sentencesOf content ≠ []) :
    (∀ p ∈ scoredSentences content query, 1 ≤ p.2)
    ∧ relevantSentences content query ≠ [] := by
  have hmem : [] ∈ queryWordsOf query := by
    unfold queryWordsOf
    rcases hq with ⟨c, hc, hw⟩ | ⟨c, hc, hw⟩
    · cases query with
      | nil => simp at hc
      | cons a t =>
        simp only [List.head?_cons, Option.some.injEq] at hc
        subst hc
        unfold lowerStr
        rw [List.map_cons]
        rw [splitRuns_cons_delim isWs _ _ (by rw [toLower_ws a hw]; exact hw)]
        exact List.mem_cons_self _ _
    · have hlow : (lowerStr query).getLast? = some c.toLower := by
        unfold lowerStr
        rw [List.getLast?_map, hc]
        rfl
      have hfin := splitRuns_getLast_delim isWs (lowerStr query).length (lowerStr query)
        le_rfl c.toLower hlow (by rw [toLower_ws c hw]; exact hw)
      exact List.mem_of_mem_getLast? hfin
  have hsc : ∀ p ∈ scoredSentences content query, 1 ≤ p.2 := by
    intro p hp
    unfold scoredSentences at hp
    obtain ⟨s, hsmem, rfl⟩ := List.mem_map.mp hp
    show 1 ≤ sentenceScore (queryWordsOf query) s
    unfold sentenceScore
    have h1 : [] ∈ (queryWordsOf query).filter (fun w => includesStr (lowerStr s) w) :=
      List.mem_filter.mpr ⟨hmem, includesStr_nil (lowerStr s)⟩
    have h2 := List.length_pos.mpr (List.ne_nil_of_mem h1)
    omega
  refine ⟨hsc, ?_⟩
  unfold relevantSentences relevantScored
  have hfeq : (scoredSentences content query).filter (fun p => decide (0 < p.2))
      = scoredSentences content query := by
    apply List.filter_eq_self.mpr
    intro p hp
    have := hsc p hp
    simpa using this
  rw [hfeq]
  have h1 : scoredSentences content query ≠ [] := by
    unfold scoredSentences
    simpa using hs
  have hlen : 0 < (scoredSentences content query).length := List.length_pos.mpr h1
  apply List.length_pos.mp
  rw [List.length_map, List.length_take, sortDescBy_length]
  omega

/-- Claim C10 (witness): the amended theorem applied at the query " cat",
which begins with a space, and the document "Dog house.", which has one
sentence sharing no token with the query; the selected list is nevertheless
non-empty. -/
theorem c10_edge_whitespace_witness :
    " cat".data.head? = some ' ' ∧ isWs ' ' = true
    ∧ sentencesOf "Dog house.".data ≠ []
    ∧ relevantSentences "Dog house.".data " cat".data ≠ [] :=
  ⟨by decide, by decide, by decide,
    (c10_edge_whitespace_no_fallback "Dog house.".data " cat".data
      (Or.inl ⟨' ', by decide, by decide⟩) (by decide)).2⟩

/-- Inserting an element whose key equals c puts it exactly at the front of the
key-c elements: every element it passes has a strictly larger key. -/
theorem insertDescBy_filter_eq {α : Type} (key : α → Nat) (c : Nat) (x : α) (hx : key x = c) :
    ∀ l, (insertDescBy key x l).filter (fun y => decide (key y = c))
      = x :: l.filter (fun y => decide (key y = c))
  | [] => by simp [insertDescBy, hx]
  | y :: ys => by
    by_cases h : key y ≤ key x
    · simp only [insertDescBy, if_pos h]
      simp [List.filter_cons, hx]
    · simp only [insertDescBy, if_neg h]
      have hy : ¬ (key y = c) := by omega
      simp [List.filter_cons, hy, insertDescBy_filter_eq key c x hx ys, hx]

theorem insertDescBy_filter_ne {α : Type} (key : α → Nat) (c : Nat) (x : α) (hx : ¬ key x = c) :
    ∀ l, (insertDescBy key x l).filter (fun y => decide (key y = c))
      = l.filter (fun y => decide (key y = c))
  | [] => by simp [insertDescBy, hx]
  | y :: ys => by
    by_cases h : key y ≤ key x
    · simp only [insertDescBy, if_pos h]
      simp [List.filter_cons, hx]
    · simp only [insertDescBy, if_neg h]
      simp [List.filter_cons, insertDescBy_filter_ne key c x hx ys]

/-- Stability of the descending sort: for every key value c, the key-c elements
appear in the sorted output exactly in their original order. -/
theorem sortDescBy_filter {α : Type} (key : α → Nat) (c : Nat) :
    ∀ l, (sortDescBy key l).filter (fun y => decide (key y = c))
      = l.filter (fun y => decide (key y = c))
  | [] => rfl
  | x :: xs => by
    by_cases hx : key x = c
    · rw [show sortDescBy key (x :: xs) = insertDescBy key x (sortDescBy key xs) from rfl,
        insertDescBy_filter_eq key c x hx (sortDescBy key xs), sortDescBy_filter key c xs]
      simp [List.filter_cons, hx]
    · rw [show sortDescBy key (x :: xs) = insertDescBy key x (sortDescBy key xs) from rfl,
        insertDescBy_filter_ne key c x hx (sortDescBy key xs), sortDescBy_filter key c xs]
      simp [List.filter_cons, hx]

theorem ListLeads_take {α : Type} (n : Nat) (l : List α) : ListLeads (l.take n) l :=
  ⟨l.drop n, List.take_append_drop n l⟩

theorem ListLeads_filter {α : Type} (p : α → Bool) {a b : List α} (h : ListLeads a b) :
    ListLeads (a.filter p) (b.filter p) := by
  obtain ⟨t, rfl⟩ := h
  exact ⟨t.filter p, (List.filter_append a t).symm⟩

theorem ListLeads_map {α β : Type} (f : α → β) {a b : List α} (h : ListLeads a b) :
    ListLeads (a.map f) (b.map f) := by
  obtain ⟨t, rfl⟩ := h
  exact ⟨t.map f, (List.map_append f a t).symm⟩

/-- Claim C7: retrieval is deterministic (the embedding is a pure function, so
two calls on identical inputs are definitionally equal), and among sentences of
equal score the selected list preserves the original document order: for every
score value c, the score-c part of the selection is a leading segment of the
score-c part of the positively-scored sentences in document order. -/
theorem c7_retrieval_deterministic_stable (content query : List Char) :
    extractRelevantContext content query = extractRelevantContext content query
    ∧ ∀ c : Nat,
      ListLeads ((relevantScored content query).filter fun p => decide (p.2 = c))
        (((scoredSentences content query).filter fun p => decide (0 < p.2)).filter
          fun p => decide (p.2 = c)) := by
  refine ⟨rfl, fun c => ?_⟩
  unfold relevantScored
  have h1 := ListLeads_filter (fun p => decide (p.2 = c))
    (ListLeads_take 5 (sortDescBy (fun p => p.2)
      ((scoredSentences content query).filter fun p => decide (0 < p.2))))
  rwa [sortDescBy_filter] at h1

theorem insertDescBy_mem {α : Type} (key : α → Nat) (x z : α) :
    ∀ l, z ∈ insertDescBy key x l ↔ z = x ∨ z ∈ l
  | [] => by simp [insertDescBy]
  | y :: ys => by
    by_cases h : key y ≤ key x
    · simp only [insertDescBy, if_pos h]
      simp [List.mem_cons]
    · simp only [insertDescBy, if_neg h]
      simp only [List.mem_cons, insertDescBy_mem key x z ys]
      tauto

theorem insertDescBy_sorted {α : Type} (key : α → Nat) (x : α) :
    ∀ l, List.Pairwise (fun a b => key b ≤ key a) l →
      List.Pairwise (fun a b => key b ≤ key a) (insertDescBy key x l)
  | [], _ => by simp [insertDescBy]
  | y :: ys, hp => by
    rcases List.pairwise_cons.mp hp with ⟨hy, hys⟩
    by_cases h : key y ≤ key x
    · simp only [insertDescBy, if_pos h]
      refine List.pairwise_cons.mpr ⟨?_, hp⟩
      intro z hz
      rcases List.mem_cons.mp hz with rfl | hz2
      · exact h
      · exact le_trans (hy z hz2) h
    · simp only [insertDescBy, if_neg h]
      refine List.pairwise_cons.mpr ⟨?_, insertDescBy_sorted key x ys hys⟩
      intro z hz
      rcases (insertDescBy_mem key x z ys).mp hz with rfl | hz2
      · omega
      · exact hy z hz2

theorem sortDescBy_sorted {α : Type} (key : α → Nat) :
    ∀ l, List.Pairwise (fun a b => key b ≤ key a) (sortDescBy key l)
  | [] => List.Pairwise.nil
  | x :: xs => insertDescBy_sorted key x _ (sortDescBy_sorted key xs)

theorem insertAscBy_length {α : Type} (key : α → Nat) (x : α) :
    ∀ l, (insertAscBy key x l).length = l.length + 1
  | [] => rfl
  | y :: ys => by
    by_cases h : key x < key y <;>
      simp [insertAscBy, h, insertAscBy_length key x ys]

theorem sortAscBy_length {α : Type} (key : α → Nat) :
    ∀ l, (sortAscBy key l).length = l.length
  | [] => rfl
  | x :: xs => by
    simp [sortAscBy, insertAscBy_length, sortAscBy_length key xs]

theorem insertAscBy_map {α β : Type} (key : β → Nat) (f : α → β) (x : α) :
    ∀ l, (insertAscBy (fun a => key (f a)) x l).map f = insertAscBy key (f x) (l.map f)
  | [] => rfl
  | y :: ys => by
    by_cases h : key (f x) < key (f y)
    · simp only [insertAscBy, if_pos h, List.map_cons]
    · simp only [insertAscBy, if_neg h, List.map_cons, insertAscBy_map key f x ys]

theorem sortAscBy_map {α β : Type} (key : β → Nat) (f : α → β) :
    ∀ l, (sortAscBy (fun a => key (f a)) l).map f = sortAscBy key (l.map f)
  | [] => rfl
  | x :: xs => by
    simp only [sortAscBy, insertAscBy_map, sortAscBy_map key f xs, List.map_cons]

theorem filter_comp_map {α β : Type} (q : β → Bool) (f : α → β) :
    ∀ l : List α, (l.filter (fun a => q (f a))).map f = (l.map f).filter q
  | [] => rfl
  | x :: xs => by
    by_cases h : q (f x) <;>
      simp [List.filter_cons, h, filter_comp_map q f xs]

theorem length_filter_add_not {α : Type} (p : α → Bool) :
    ∀ l : List α, (l.filter p).length + (l.filter (fun a => !p a)).length = l.length
  | [] => rfl
  | x :: xs => by
    have ih := length_filter_add_not p xs
    by_cases h : p x <;> simp [List.filter_cons, h] <;> omega

theorem bumpFreq_keys_mem (key : List Char) :
    ∀ l : List (List Char × Nat), key ∈ l.map Prod.fst →
      (bumpFreq key l).map Prod.fst = l.map Prod.fst
  | [], h => by simp at h
  | (k, n) :: rest, h => by
    by_cases hk : (k == key) = true
    · simp [bumpFreq, hk]
    · have hne : ¬ (k = key) := by simpa using hk
      have h2 : key ∈ rest.map Prod.fst := by
        rw [List.map_cons] at h
        rcases List.mem_cons.mp h with h3 | h3
        · exact absurd h3.symm hne
        · exact h3
      simp [bumpFreq, hk, bumpFreq_keys_mem key rest h2]

theorem bumpFreq_keys_new (key : List Char) :
    ∀ l : List (List Char × Nat), key ∉ l.map Prod.fst →
      (bumpFreq key l).map Prod.fst = l.map Prod.fst ++ [key]
  | [], _ => rfl
  | (k, n) :: rest, h => by
    have hne : ¬ (k = key) := by
      intro h0
      exact h (by simp [h0])
    have h2 : key ∉ rest.map Prod.fst := by
      intro h0
      exact h (by simp [h0])
    have hk : ¬ (k == key) = true := by simpa using hne
    simp [bumpFreq, hk, bumpFreq_keys_new key rest h2]

/-- Invariant of the wordFreq fold: its key list is the initial keys followed
by the first occurrences of the newly seen long tokens, in encounter order. -/
theorem buildFreq_go_keys :
    ∀ (ws : List (List Char)) (acc : List (List Char × Nat)),
      ((ws.foldl (fun acc w =>
        if 3 < (cleanWord w).length then bumpFreq (cleanWord w) acc else acc) acc).map Prod.fst)
      = acc.map Prod.fst
        ++ dedupGo (acc.map Prod.fst) ((ws.map cleanWord).filter fun t => decide (3 < t.length))
  | [], acc => by simp [dedupGo]
  | w :: ws, acc => by
    by_cases hlen : 3 < (cleanWord w).length
    · by_cases hmem : cleanWord w ∈ acc.map Prod.fst
      · rw [List.foldl_cons, if_pos hlen,
          buildFreq_go_keys ws (bumpFreq (cleanWord w) acc),
          bumpFreq_keys_mem _ acc hmem]
        simp [List.map_cons, List.filter_cons, hlen, dedupGo, hmem]
      · rw [List.foldl_cons, if_pos hlen,
          buildFreq_go_keys ws (bumpFreq (cleanWord w) acc),
          bumpFreq_keys_new _ acc hmem]
        simp [List.map_cons, List.filter_cons, hlen, dedupGo, hmem]
    · rw [List.foldl_cons, if_neg hlen, buildFreq_go_keys ws acc]
      simp [List.map_cons, List.filter_cons, hlen]

/-- The keys of wordFreq are exactly the distinct long cleaned tokens in
first-encountered order. -/
theorem buildFreq_keys (ws : List (List Char)) :
    (buildFreq ws).map Prod.fst
      = dedupFS ((ws.map cleanWord).filter fun t => decide (3 < t.length)) := by
  have h := buildFreq_go_keys ws []
  simpa [buildFreq, dedupFS] using h

/-- Claim C4 (amended): topWords has length min(10, number of distinct cleaned
tokens of length above 3) and is sorted by descending count; among entries with
equal counts the preserved order is the JS object key enumeration order, namely
array-index tokens (digit strings, no leading zero, value below 2^32 - 1) first
in ascending numeric order, then the remaining tokens in first-encountered
order — NOT plain first-encountered order when digit-only tokens occur. -/
theorem c4_top_words (text : List Char) :
    (performDocumentAnalysis text).topWords.length
      = min 10 (dedupFS (cleanTokensOf text)).length
    ∧ List.Pairwise (fun a b => b.count ≤ a.count) (performDocumentAnalysis text).topWords
    ∧ (∀ c : Nat,
        ListLeads ((performDocumentAnalysis text).topWords.filter fun k => decide (k.count = c))
          (((objectEntries (buildFreq (wordsOf text))).map fun kv =>
              (⟨kv.1, kv.2⟩ : KeywordCount)).filter fun k => decide (k.count = c)))
    ∧ (objectEntries (buildFreq (wordsOf text))).map Prod.fst
      = sortAscBy natOfDigits ((dedupFS (cleanTokensOf text)).filter isIndexKey)
        ++ (dedupFS (cleanTokensOf text)).filter fun k => !isIndexKey k := by
  have hDkeys : (buildFreq (wordsOf text)).map Prod.fst = dedupFS (cleanTokensOf text) := by
    rw [buildFreq_keys]
    rfl
  have hlenD : (buildFreq (wordsOf text)).length = (dedupFS (cleanTokensOf text)).length := by
    rw [← hDkeys, List.length_map]
  have hentlen : (objectEntries (buildFreq (wordsOf text))).length
      = (buildFreq (wordsOf text)).length := by
    unfold objectEntries
    rw [List.length_append, sortAscBy_length]
    exact length_filter_add_not (fun kv : List Char × Nat => isIndexKey kv.1) _
  refine ⟨?_, ?_, ?_, ?_⟩
  · show (topWordsOf text).length = _
    unfold topWordsOf
    rw [List.length_map, List.length_take, sortDescBy_length, hentlen, hlenD]
  · show List.Pairwise _ (topWordsOf text)
    unfold topWordsOf
    apply List.pairwise_map.mpr
    exact ((sortDescBy_sorted (fun kv : List Char × Nat => kv.2) _).sublist (List.take_sublist 10 _))
  · intro c
    have hab : ListLeads
        (((sortDescBy (fun kv => kv.2) (objectEntries (buildFreq (wordsOf text)))).take 10).filter
          fun kv => decide (kv.2 = c))
        ((objectEntries (buildFreq (wordsOf text))).filter fun kv => decide (kv.2 = c)) := by
      have h1 := ListLeads_filter (fun kv => decide (kv.2 = c))
        (ListLeads_take 10 (sortDescBy (fun kv => kv.2) (objectEntries (buildFreq (wordsOf text)))))
      rwa [sortDescBy_filter] at h1
    show ListLeads
      ((((sortDescBy (fun kv => kv.2) (objectEntries (buildFreq (wordsOf text)))).take 10).map
          (fun kv : List Char × Nat => (⟨kv.1, kv.2⟩ : KeywordCount))).filter
        fun k => decide (k.count = c))
      (((objectEntries (buildFreq (wordsOf text))).map
          fun kv : List Char × Nat => (⟨kv.1, kv.2⟩ : KeywordCount)).filter
        fun k => decide (k.count = c))
    rw [← filter_comp_map (fun k => decide (k.count = c))
      (fun kv : List Char × Nat => (⟨kv.1, kv.2⟩ : KeywordCount)),
      ← filter_comp_map (fun k => decide (k.count = c))
      (fun kv : List Char × Nat => (⟨kv.1, kv.2⟩ : KeywordCount))]
    exact ListLeads_map _ hab
  · unfold objectEntries
    rw [List.map_append, sortAscBy_map natOfDigits Prod.fst,
      filter_comp_map isIndexKey Prod.fst, filter_comp_map (fun k => !isIndexKey k) Prod.fst,
      hDkeys]
